import Mathlib

set_option maxRecDepth 40000

/-!
Verification of the EssentiaSketch asynchronous analysis pipeline.

Shallow embedding of the code in src/js/CacheManager.js (classes CacheManager
and EssentiaWorkerManager), src/js/AudioPlayerUI.js (AudioManager.loadAudioBuffer),
src/js/essentia.worker.js (the worker message handler) and src/sketch.js
(initializeApp / processFirstAudioFile / processRemainingAudioFiles).

Modelling conventions:
- A JS object used as a string-keyed map is a `List (String × _)` in insertion
  order; keys here always contain an underscore, so they are never array-index
  keys and JS preserves insertion order for them.
- `Date.now()` values are `Nat` parameters threaded explicitly.
- `Math.random()` is an explicit stream `rand : Nat → Rat`, consumed in the
  order the source calls it.
- External browser APIs are parameters: `stringify` abstracts `JSON.stringify`
  on a cache store, `blobSize` abstracts `new Blob([s]).size`, `localStorage`
  is a `Storage` value with a quota; `setItem` fails with QuotaExceededError
  exactly when the measured size exceeds the quota.  The `attempts` field of
  `Storage` counts `setItem` calls (instrumentation used to state that a failed
  write is retried exactly once).
- Promise resolution/rejection is recorded in a `settled` log; rejections carry
  the JS Error message string.
-/

/-! ## Data model (spec section 3, and the object shapes used by the code) -/

structure AudioFile where
  path : String
  size : Nat
  name : String
deriving Repr, DecidableEq

/-- The fixed record of scalar features produced by the analyzer
(see `generateMockAnalysis` and the worker `analyzeAudio`). The JS field
named `structure` is `sectionLabel` here (`structure` is a Lean keyword). -/
structure AnalysisResult where
  energy : Rat
  mood : Rat
  key : String
  scale : String
  tempo : Rat
  loudness : Rat
  keyStrength : Rat
  sectionLabel : String
deriving Repr, DecidableEq

/-- CacheManager.js line 101-108: the entry stored under a cache key.
The `analysis` field holds whatever JS value the caller passed
(`none` models `undefined`/`null`). -/
structure CacheEntry where
  fileName : String
  path : String
  size : Nat
  analysis : Option AnalysisResult
  cachedAt : Nat
  lastAccessed : Nat
deriving Repr, DecidableEq

/-- The persisted aggregate `{ version, data }` (CacheManager.js line 17). -/
structure CacheStore where
  version : String
  data : List (String × CacheEntry)
deriving Repr, DecidableEq

/-- localStorage as seen through the single key the code uses
(`essentiaSketch_audioAnalysis`).  `item` is the value stored under that key,
`quota` the remaining byte budget used to decide QuotaExceededError, and
`attempts` counts `setItem` calls. -/
structure Storage where
  quota : Nat
  item : Option String
  attempts : Nat
deriving Repr, DecidableEq

inductive JsError where
  | quotaExceeded
  | other (msg : String)
deriving Repr, DecidableEq

/-! ## CacheManager (src/js/CacheManager.js) -/

/-- The constant assigned to `this.cacheVersion` at CacheManager.js line 8.
Note the constructor order (line 4-9): `this.cache = this.loadCache()` runs
BEFORE this assignment, so `loadCache` and the `clearCache` it calls never
see this value. -/
def cacheVersion : String := "1.0"

def maxCacheSize : Nat := 500

/-- CacheManager.js line 70-73: `generateFileKey` returns the template string
`${audioFile.path}_${audioFile.size}`. -/
def generateFileKey (audioFile : AudioFile) : String :=
  audioFile.path ++ "_" ++ toString audioFile.size

def freshCache : CacheStore := { version := cacheVersion, data := [] }

/-- JS property read `data[key]` on a string-keyed object. -/
def objGet (data : List (String × CacheEntry)) (k : String) : Option CacheEntry :=
  (data.find? (fun p => p.1 == k)).map Prod.snd

/-- JS property write `data[key] = v`: overwrite in place if the key exists,
append otherwise (insertion order preserved). -/
def objSet (data : List (String × CacheEntry)) (k : String) (v : CacheEntry) :
    List (String × CacheEntry) :=
  if data.any (fun p => p.1 == k) then
    data.map (fun p => if p.1 == k then (k, v) else p)
  else
    data ++ [(k, v)]

/-- CacheManager.js line 76-79. -/
def hasCachedAnalysis (audioFile : AudioFile) (c : CacheStore) : Bool :=
  c.data.any (fun p => p.1 == generateFileKey audioFile)

/-- CacheManager.js line 82-95: on a hit, mutate the found entry by setting
`lastAccessed = Date.now()` and return its `analysis`; on a miss return null. -/
def getCachedAnalysis (audioFile : AudioFile) (now : Nat) (c : CacheStore) :
    Option AnalysisResult × CacheStore :=
  let key := generateFileKey audioFile
  match objGet c.data key with
  | some cached =>
      (cached.analysis,
       { c with data := c.data.map (fun p =>
           if p.1 == key then (p.1, { p.2 with lastAccessed := now }) else p) })
  | none => (none, c)

/-- Stable insertion used to model `entries.sort((a, b) => a[1].lastAccessed -
b[1].lastAccessed)` (CacheManager.js line 125); JS `Array.prototype.sort` is
stable, and a stable sort by a key is unique, so insertion sort is an exact
model. -/
def insertByLA (p : String × CacheEntry) :
    List (String × CacheEntry) → List (String × CacheEntry)
  | [] => [p]
  | q :: qs =>
      if p.2.lastAccessed ≤ q.2.lastAccessed then p :: q :: qs
      else q :: insertByLA p qs

def sortByLastAccessed (l : List (String × CacheEntry)) : List (String × CacheEntry) :=
  l.foldr insertByLA []

/-- CacheManager.js line 121-135: sort all entries by `lastAccessed` ascending,
keep the last `Math.floor(maxCacheSize * 0.7)` of them (the IEEE double product
`500 * 0.7` is exactly 350, so the Nat computation agrees), and rebuild the
data object from the kept entries.  `entries.slice(-keepCount)` is
`drop (length - keepCount)` for the positive `keepCount` used here. -/
def pruneCache (c : CacheStore) : CacheStore :=
  let entries := c.data
  let sorted := sortByLastAccessed entries
  let keepCount := maxCacheSize * 7 / 10
  { c with data := sorted.drop (sorted.length - keepCount) }

/-- The 4.5 MiB budget from CacheManager.js line 45: `4.5 * 1024 * 1024`. -/
def sizeBudget : Nat := 4718592

/-- `localStorage.setItem` under the storage model: count the attempt, store
the value if it fits in the quota, otherwise raise QuotaExceededError. -/
def setItem (blobSize : String → Nat) (st : Storage) (v : String) :
    Storage × Option JsError :=
  let st1 := { st with attempts := st.attempts + 1 }
  if blobSize v ≤ st.quota then ({ st1 with item := some v }, none)
  else (st1, some JsError.quotaExceeded)

/-- CacheManager.js line 39-67 (`saveCache`): serialize the store, prune the
in-memory store pre-emptively if the estimated size exceeds the budget, then
write the (already computed) serialized string; on QuotaExceededError prune
again and retry exactly once with a fresh serialization, swallowing a second
failure; other errors are logged and swallowed.  Returns the resulting
in-memory store and storage: the function never throws. -/
def saveCache (stringify : CacheStore → String) (blobSize : String → Nat)
    (c : CacheStore) (st : Storage) : CacheStore × Storage :=
  let serialized := stringify c
  let estimatedSize := blobSize serialized
  let c1 := if estimatedSize > sizeBudget then pruneCache c else c
  let r1 := setItem blobSize st serialized
  match r1.2 with
  | none => (c1, r1.1)
  | some JsError.quotaExceeded =>
      let c2 := pruneCache c1
      let r2 := setItem blobSize r1.1 (stringify c2)
      (c2, r2.1)
  | some (JsError.other _) => (c1, r1.1)

/-- CacheManager.js line 98-118 (`setCachedAnalysis`): store the entry under
the file key, prune when the entry count exceeds `maxCacheSize`, then persist
via `saveCache`. -/
def setCachedAnalysis (stringify : CacheStore → String) (blobSize : String → Nat)
    (audioFile : AudioFile) (analysis : Option AnalysisResult) (now : Nat)
    (c : CacheStore) (st : Storage) : CacheStore × Storage :=
  let key := generateFileKey audioFile
  let entry : CacheEntry :=
    { fileName := audioFile.name
      path := audioFile.path
      size := audioFile.size
      analysis := analysis
      cachedAt := now
      lastAccessed := now }
  let c1 : CacheStore := { c with data := objSet c.data key entry }
  let c2 := if c1.data.length > maxCacheSize then pruneCache c1 else c1
  saveCache stringify blobSize c2 st

/-- A persisted store as `JSON.parse` yields it: the `version` property may
be absent (`JSON.parse` never produces a present property holding undefined),
in which case reading `parsed.version` gives undefined, modelled as `none`. -/
structure ParsedStore where
  version : Option String
  data : List (String × CacheEntry)
deriving Repr, DecidableEq

/-- The value every read of `this.cacheVersion` yields while `loadCache` and
`clearCache` run: the constructor (CacheManager.js line 4-9) assigns
`this.cache = this.loadCache()` BEFORE `this.cacheVersion = '1.0'`, and
`clearCache` is called only from inside that load (line 25), so at these
call sites the field is still undefined. -/
def ctorCacheVersion : Option String := none

/-- CacheManager.js line 138-142 (`clearCache`), as reachable in the program
(only from the mismatch branch of `loadCache`): installs
`{ version: this.cacheVersion, data: {} }` — with `this.cacheVersion` still
undefined — and removes the persisted item. -/
def clearCache (st : Storage) : ParsedStore × Storage :=
  ({ version := ctorCacheVersion, data := [] }, { st with item := none })

/-- CacheManager.js line 12-36 (`loadCache`), as called from the constructor:
no stored value starts fresh; a parse failure starts fresh; a store whose
`version` property differs from `this.cacheVersion` — still undefined at
this point, so any store whose version property is present, the constant
`"1.0"` included, mismatches — is cleared and replaced by a fresh store
carrying `version: undefined`; otherwise the parsed store is adopted.
`parse` abstracts `JSON.parse` (an `Except` error models a thrown
SyntaxError, caught at line 32). -/
def loadCache (parse : String → Except String ParsedStore) (st : Storage) :
    ParsedStore × Storage :=
  match st.item with
  | none => ({ version := ctorCacheVersion, data := [] }, st)
  | some stored =>
      match parse stored with
      | Except.error _ => ({ version := ctorCacheVersion, data := [] }, st)
      | Except.ok parsed =>
          if parsed.version ≠ ctorCacheVersion then
            let cleared := clearCache st
            ({ version := ctorCacheVersion, data := [] }, cleared.2)
          else (parsed, st)

/-! ## Claim C9: the cache-key function -/

/-- C9: `computeKey` (`generateFileKey`) is the deterministic function
`file ↦ path ++ "_" ++ size`: two files agreeing on `(path, size)` get the
same key, and the two concrete files sharing path `x/y.mp3` with sizes 1000
and 2000 get different keys. -/
theorem c9_cache_key_function (f₁ f₂ : AudioFile)
    (hp : f₁.path = f₂.path) (hs : f₁.size = f₂.size) :
    generateFileKey f₁ = generateFileKey f₂ ∧
    generateFileKey { path := "x/y.mp3", size := 1000, name := "a" } ≠
      generateFileKey { path := "x/y.mp3", size := 2000, name := "b" } := by
  constructor
  · simp [generateFileKey, hp, hs]
  · decide

theorem c9_cache_key_function_witness :
    generateFileKey { path := "p", size := 3, name := "x" } =
      generateFileKey { path := "p", size := 3, name := "y" } ∧
    generateFileKey { path := "x/y.mp3", size := 1000, name := "a" } ≠
      generateFileKey { path := "x/y.mp3", size := 2000, name := "b" } :=
  c9_cache_key_function { path := "p", size := 3, name := "x" }
    { path := "p", size := 3, name := "y" } rfl rfl

/-! ## Claim C5: version-mismatch load

The claim says a mismatched load yields an empty store with the version set
to the running version.  In the code, `loadCache` runs from the constructor
BEFORE `this.cacheVersion = '1.0'` is assigned (CacheManager.js line 6
versus line 8), so the comparison value is undefined: any persisted store
whose version property is present — the running `"1.0"` included — is
discarded, and the store installed after a mismatch carries
`version: undefined`, not `"1.0"`.  The discard itself is total (zero
entries, nothing survives, the persisted item is removed), so only the
installed-version conjunct, and which stores count as mismatched, are wrong
in the claim. -/

def c5cEntry : CacheEntry :=
  { fileName := "f", path := "p", size := 1,
    analysis := none, cachedAt := 0, lastAccessed := 0 }

def c5cParse : String → Except String ParsedStore := fun s =>
  if s = "blob" then
    Except.ok { version := some "0.9", data := [("k", c5cEntry)] }
  else if s = "blobRunning" then
    Except.ok { version := some cacheVersion, data := [("k", c5cEntry)] }
  else Except.error "SyntaxError"

/-- C5 counterexample: loading a persisted store tagged `"0.9"` (differing
from the running `cacheVersion = "1.0"`) does empty the store, but the
installed version is undefined (`none`), not the running version — and a
store tagged with the running `"1.0"` itself is discarded too, because the
comparison value at the only call site is undefined. -/
theorem c5_version_undefined_counterexample :
    (loadCache c5cParse
        { quota := 1000, item := some "blob", attempts := 0 }).1.data = [] ∧
    (loadCache c5cParse
        { quota := 1000, item := some "blob", attempts := 0 }).1.version = none ∧
    (loadCache c5cParse
        { quota := 1000, item := some "blob", attempts := 0 }).1.version
      ≠ some cacheVersion ∧
    (loadCache c5cParse
        { quota := 1000, item := some "blobRunning", attempts := 0 }).1.data = [] := by
  decide

/-- C5 amended: loading a persisted store whose `version` property differs
from the value of `this.cacheVersion` at load time — undefined, because the
constructor assigns the constant only after `loadCache` has run, so every
store whose version property is present (the running `"1.0"` included)
mismatches — yields an empty store: zero entries, version undefined, the
persisted item removed; never a partial or mixed store, and no entry of the
mismatched store survives into the in-memory cache. -/
theorem c5_version_mismatch_amended
    (parse : String → Except String ParsedStore) (st : Storage)
    (stored : String) (s : ParsedStore)
    (hst : st.item = some stored) (hp : parse stored = Except.ok s)
    (hv : s.version ≠ ctorCacheVersion) :
    (loadCache parse st).1.version = ctorCacheVersion ∧
    ctorCacheVersion = none ∧
    (loadCache parse st).1.data = [] ∧
    (loadCache parse st).2.item = none ∧
    (∀ s2 : ParsedStore, ∀ v : String, s2.version = some v →
        s2.version ≠ ctorCacheVersion) := by
  simp only [loadCache, hst, hp, clearCache, if_pos hv]
  refine ⟨trivial, rfl, trivial, trivial, ?_⟩
  intro s2 v hv2
  rw [hv2]
  simp [ctorCacheVersion]

theorem c5_version_mismatch_amended_witness :
    (loadCache c5cParse
        { quota := 1000, item := some "blob", attempts := 0 }).1.version
      = ctorCacheVersion ∧
    ctorCacheVersion = none ∧
    (loadCache c5cParse
        { quota := 1000, item := some "blob", attempts := 0 }).1.data = [] ∧
    (loadCache c5cParse
        { quota := 1000, item := some "blob", attempts := 0 }).2.item = none := by
  have h := c5_version_mismatch_amended c5cParse
    { quota := 1000, item := some "blob", attempts := 0 } "blob"
    { version := some "0.9", data := [("k", c5cEntry)] }
    rfl rfl (by decide)
  exact ⟨h.1, h.2.1, h.2.2.1, h.2.2.2.1⟩

/-! ## Claim C10: frame property of cache lookup -/

/-- C10: on a cache hit, `getCachedAnalysis` returns the `analysis` of the
matched entry and mutates only its `lastAccessed` field (position, key
and all other fields of the matched entry, and every other entry, are
unchanged); on a miss it returns null and leaves the store untouched. -/
theorem c10_get_frame_property (f : AudioFile) (now : Nat) (c : CacheStore) :
    (hasCachedAnalysis f c = false → getCachedAnalysis f now c = (none, c)) ∧
    (getCachedAnalysis f now c).2.version = c.version ∧
    (getCachedAnalysis f now c).2.data.length = c.data.length ∧
    (hasCachedAnalysis f c = true →
        ∃ e, objGet c.data (generateFileKey f) = some e ∧
          (getCachedAnalysis f now c).1 = e.analysis) ∧
    (∀ i, ∀ hi : i < c.data.length,
       (getCachedAnalysis f now c).2.data.get? i =
         some (if (c.data.get ⟨i, hi⟩).1 = generateFileKey f
               then ((c.data.get ⟨i, hi⟩).1,
                     { (c.data.get ⟨i, hi⟩).2 with lastAccessed := now })
               else c.data.get ⟨i, hi⟩)) := by
  have hhas : hasCachedAnalysis f c = true ↔
      ∃ x ∈ c.data, x.1 = generateFileKey f := by
    simp [hasCachedAnalysis, List.any_eq_true]
  cases h : objGet c.data (generateFileKey f) with
  | none =>
      have hmiss : getCachedAnalysis f now c = (none, c) := by
        simp [getCachedAnalysis, h]
      have hno : ∀ x ∈ c.data, x.1 ≠ generateFileKey f := by
        have h2 : c.data.find? (fun p => p.1 == generateFileKey f) = none := by
          simpa [objGet] using h
        intro x hx
        have := List.find?_eq_none.mp h2 x hx
        simpa using this
      refine ⟨fun _ => hmiss, by rw [hmiss], by rw [hmiss], ?_, ?_⟩
      · intro hht
        obtain ⟨x, hx, hk⟩ := hhas.mp hht
        exact absurd hk (hno x hx)
      · intro i hi
        rw [hmiss, if_neg (hno _ (c.data.get_mem i hi))]
        exact List.get?_eq_get hi
  | some e =>
      have hgc : getCachedAnalysis f now c =
          (e.analysis,
           { c with data := c.data.map (fun p =>
               if p.1 == generateFileKey f then
                 (p.1, { p.2 with lastAccessed := now }) else p) }) := by
        simp [getCachedAnalysis, h]
      obtain ⟨a, ha, hae⟩ :
          ∃ a, c.data.find? (fun p => p.1 == generateFileKey f) = some a ∧
            a.2 = e := by
        simpa [objGet] using h
      have hmem := List.mem_of_find?_eq_some ha
      have hpa : a.1 = generateFileKey f := by simpa using List.find?_some ha
      have hht : hasCachedAnalysis f c = true := hhas.mpr ⟨a, hmem, hpa⟩
      refine ⟨?_, by rw [hgc], by rw [hgc]; simp, ?_, ?_⟩
      · intro hhf
        simp [hht] at hhf
      · intro _
        exact ⟨e, rfl, by rw [hgc]⟩
      · intro i hi
        rw [hgc]
        simp only [List.get?_eq_getElem?, List.getElem?_map]
        simp only [List.getElem?_eq_getElem hi, Option.map_some']
        by_cases hk : (c.data.get ⟨i, hi⟩).1 = generateFileKey f
        · simp [hk]
        · simp [hk]

theorem c10_get_frame_property_witness :
    (let f : AudioFile := { path := "p", size := 1, name := "n" }
     let c : CacheStore :=
       { version := "1.0",
         data := [("p_1", { fileName := "n", path := "p", size := 1,
                            analysis := none, cachedAt := 3, lastAccessed := 3 }),
                  ("q_2", { fileName := "m", path := "q", size := 2,
                            analysis := none, cachedAt := 4, lastAccessed := 4 })] }
     (hasCachedAnalysis f c = false → getCachedAnalysis f 9 c = (none, c)) ∧
     (getCachedAnalysis f 9 c).2.version = c.version ∧
     (getCachedAnalysis f 9 c).2.data.length = c.data.length ∧
     (hasCachedAnalysis f c = true →
         ∃ e, objGet c.data (generateFileKey f) = some e ∧
           (getCachedAnalysis f 9 c).1 = e.analysis) ∧
     (∀ i, ∀ hi : i < c.data.length,
        (getCachedAnalysis f 9 c).2.data.get? i =
          some (if (c.data.get ⟨i, hi⟩).1 = generateFileKey f
                then ((c.data.get ⟨i, hi⟩).1,
                      { (c.data.get ⟨i, hi⟩).2 with lastAccessed := 9 })
                else c.data.get ⟨i, hi⟩))) :=
  c10_get_frame_property { path := "p", size := 1, name := "n" } 9 _

/-! ## EssentiaWorkerManager (src/js/CacheManager.js, second class) -/

/-- Logical shape of worker responses (spec section 6; essentia.worker.js
always posts one of init-complete, analysis-complete, or error). -/
inductive WirePayload where
  | initResult (success : Bool) (error : String)
  | analysisComplete (analysis : AnalysisResult) (fileName : String)
  | errorPayload (error : String)
deriving Repr, DecidableEq

/-- The `payload.error` property read by `handleMessage`; on payloads without
an `error` property the JS read yields `undefined`, which `new Error`
stringifies to the text `undefined`. -/
def WirePayload.errorField : WirePayload → String
  | WirePayload.errorPayload e => e
  | WirePayload.initResult _ e => e
  | WirePayload.analysisComplete _ _ => "undefined"

/-- An inbound message `{ type, payload, id }`. -/
structure WireMsg where
  type : String
  payload : WirePayload
  id : Nat
deriving Repr, DecidableEq

inductive OutPayload where
  | initPayload
  | analyzePayload (audioBuffer : Option (List Rat)) (fileName : String)
deriving Repr, DecidableEq

/-- An outbound message posted to the worker: `{ type, payload, id }`. -/
structure OutboundMsg where
  type : String
  payload : OutPayload
  id : Nat
deriving Repr, DecidableEq

/-- What happened to the promise of a request: `resolve(payload)` or
`reject(new Error(msg))`. -/
inductive Outcome where
  | resolved (payload : WirePayload)
  | rejected (errMsg : String)
deriving Repr, DecidableEq

/-- State of an `EssentiaWorkerManager` (CacheManager.js line 200-206).
`pending` holds the keys of `pendingMessages` in insertion order; `settled`
is the log of promise completions (our observation of resolve/reject calls);
`posted` is the log of `worker.postMessage` calls. -/
structure EssentiaWorkerManager where
  workerAlive : Bool
  isInitialized : Bool
  messageId : Nat
  pending : List Nat
  settled : List (Nat × Outcome)
  posted : List OutboundMsg
deriving Repr, DecidableEq

/-- The fixed request timeout from CacheManager.js line 280: 60000 ms. -/
def timeoutDelayMs : Nat := 60000

/-- CacheManager.js line 264-282 (`sendMessage`): allocate `id = messageId++`,
register the pending promise, post `{ type, payload, id }`, and schedule the
timeout for `now + 60000` ms.  Returns the new state, the allocated id, and
the scheduled timeout fire time. -/
def sendMessage (s : EssentiaWorkerManager) (ty : String) (pl : OutPayload)
    (now : Nat) : EssentiaWorkerManager × Nat × Nat :=
  let id := s.messageId
  ({ s with
      messageId := id + 1
      pending := s.pending ++ [id]
      posted := s.posted ++ [{ type := ty, payload := pl, id := id }] },
   id, now + timeoutDelayMs)

/-- CacheManager.js line 242-262 (`handleMessage`): look up the pending
promise for `e.data.id`; if none is found, log and discard (the function
returns without touching any state and without throwing — it is total);
otherwise delete the entry and reject (type `error`) or resolve it. -/
def handleMessage (s : EssentiaWorkerManager) (m : WireMsg) : EssentiaWorkerManager :=
  if m.id ∈ s.pending then
    if m.type = "error" then
      { s with pending := s.pending.erase m.id
               settled := s.settled ++ [(m.id, Outcome.rejected m.payload.errorField)] }
    else
      { s with pending := s.pending.erase m.id
               settled := s.settled ++ [(m.id, Outcome.resolved m.payload)] }
  else s

/-- The timeout callback scheduled by `sendMessage` (CacheManager.js line
275-280): if the id is still pending, delete it and reject with the timeout
error; otherwise do nothing. -/
def fireTimeout (s : EssentiaWorkerManager) (id : Nat) : EssentiaWorkerManager :=
  if id ∈ s.pending then
    { s with pending := s.pending.erase id
             settled := s.settled ++ [(id, Outcome.rejected "Worker message timeout")] }
  else s

/-- CacheManager.js line 322-329 (`terminate`): if a worker exists, terminate
it and clear `worker` and `isInitialized`.  Note: `pendingMessages` is not
touched. -/
def terminate (s : EssentiaWorkerManager) : EssentiaWorkerManager :=
  if s.workerAlive then
    { s with workerAlive := false, isInitialized := false }
  else s

def keyLabels : List String :=
  ["C", "C#", "D", "D#", "E", "F"] ++ ["F#", "G", "G#", "A", "A#", "B"]

def structureLabels : List String :=
  ["hook", "verse", "pre-chorus", "chorus", "outro"]

/-- CacheManager.js line 308-320 (`generateMockAnalysis`): a synthetic
fallback result with uniformly random features.  `rand i` is the value of the
i-th `Math.random()` call, in source order; for `rand i` in `[0, 1)` the list
lookups are always in range, so the `getD` defaults are never used. -/
def generateMockAnalysis (rand : Nat → Rat) : AnalysisResult :=
  { energy := rand 0
    mood := rand 1
    key := keyLabels.getD (rand 2 * 12).floor.toNat "C"
    scale := if rand 3 > (0.5 : Rat) then "major" else "minor"
    tempo := 60 + rand 4 * 120
    loudness := -40 + rand 5 * 30
    keyStrength := rand 6
    sectionLabel := structureLabels.getD (rand 7 * 5).floor.toNat "hook" }

/-- Result of entering `analyzeAudio` (CacheManager.js line 284-306): either
the immediate mock fallback (worker not initialized), or the state after the
analyze request was sent, together with the correlation id to await and the
scheduled timeout fire time. -/
inductive AnalyzeStep where
  | immediate (result : AnalysisResult)
  | awaiting (s : EssentiaWorkerManager) (id : Nat) (fireAt : Nat)
deriving Repr, DecidableEq

def analyzeAudioStart (s : EssentiaWorkerManager) (audioBuffer : Option (List Rat))
    (fileName : String) (rand : Nat → Rat) (now : Nat) : AnalyzeStep :=
  if s.isInitialized = false then
    AnalyzeStep.immediate (generateMockAnalysis rand)
  else
    let r := sendMessage s "analyze" (OutPayload.analyzePayload audioBuffer fileName) now
    AnalyzeStep.awaiting r.1 r.2.1 r.2.2

/-- The completion outcome recorded for a request id, if any. -/
def settledOutcome (s : EssentiaWorkerManager) (id : Nat) : Option Outcome :=
  (s.settled.find? (fun p => p.1 == id)).map Prod.snd

/-- Awaiting the promise of request `id`: if a reply message arrives it is
dispatched through `handleMessage`; if that did not settle the request (no
reply, or a reply whose id does not match), the scheduled timeout fires and
rejects it.  Total: the await always produces an outcome. -/
def awaitOutcome (m : EssentiaWorkerManager) (id : Nat) (reply : Option WireMsg) :
    EssentiaWorkerManager × Outcome :=
  let m1 := match reply with
            | some msg => handleMessage m msg
            | none => m
  match settledOutcome m1 id with
  | some o => (m1, o)
  | none =>
      let m2 := fireTimeout m1 id
      ((m2, (settledOutcome m2 id).getD (Outcome.rejected "Worker message timeout")))

/-- The tail of `analyzeAudio`: a resolved analyze response yields
`result.analysis` (which is `undefined` when the payload has no `analysis`
property); any rejection is caught and replaced by a fresh mock analysis. -/
def analyzeAudioFinish (o : Outcome) (rand : Nat → Rat) : Option AnalysisResult :=
  match o with
  | Outcome.resolved (WirePayload.analysisComplete a _) => some a
  | Outcome.resolved _ => none
  | Outcome.rejected _ => some (generateMockAnalysis rand)

/-! ## Claim C4: request timeout and late-response safety -/

theorem handleMessage_skip (t : EssentiaWorkerManager) (m : WireMsg)
    (h : m.id ∉ t.pending) : handleMessage t m = t := by
  simp [handleMessage, h]

theorem handleMessage_pending (t : EssentiaWorkerManager) (m : WireMsg) :
    (handleMessage t m).pending = t.pending ∨
    (handleMessage t m).pending = t.pending.erase m.id := by
  unfold handleMessage
  split
  · split
    · exact Or.inr rfl
    · exact Or.inr rfl
  · exact Or.inl rfl

theorem handleMessage_settled (t : EssentiaWorkerManager) (m : WireMsg) :
    (handleMessage t m).settled = t.settled ∨
    ∃ o, (handleMessage t m).settled = t.settled ++ [(m.id, o)] := by
  unfold handleMessage
  split
  · split
    · exact Or.inr ⟨_, rfl⟩
    · exact Or.inr ⟨_, rfl⟩
  · exact Or.inl rfl

theorem foldl_handleMessage_invariant (id : Nat) (ms : List WireMsg) :
    ∀ t : EssentiaWorkerManager,
      (∀ m ∈ ms, m.id ≠ id) →
      t.pending.count id = 1 → (∀ p ∈ t.settled, p.1 ≠ id) →
      (ms.foldl handleMessage t).pending.count id = 1 ∧
      (∀ p ∈ (ms.foldl handleMessage t).settled, p.1 ≠ id) := by
  induction ms with
  | nil => exact fun t _ h1 h2 => ⟨h1, h2⟩
  | cons m rest ih =>
      intro t hms h1 h2
      have hmne : id ≠ m.id := fun h => (hms m (by simp)) h.symm
      have hstep1 : (handleMessage t m).pending.count id = 1 := by
        rcases handleMessage_pending t m with h | h
        · rw [h]; exact h1
        · rw [h, List.count_erase_of_ne hmne]; exact h1
      have hstep2 : ∀ p ∈ (handleMessage t m).settled, p.1 ≠ id := by
        rcases handleMessage_settled t m with h | ⟨o, h⟩
        · rw [h]; exact h2
        · rw [h]
          intro p hp
          rcases List.mem_append.mp hp with hp | hp
          · exact h2 p hp
          · rcases List.mem_singleton.mp hp with rfl
            exact fun hemp => hmne hemp.symm
      exact ih (handleMessage t m) (fun x hx => hms x (by simp [hx])) hstep1 hstep2

theorem find?_append_last {α : Type} (l : List α) (x : α) (p : α → Bool)
    (hl : ∀ y ∈ l, p y = false) (hx : p x = true) :
    (l ++ [x]).find? p = some x := by
  induction l with
  | nil => simp [List.find?, hx]
  | cons a as ih =>
      have ha : p a = false := hl a (by simp)
      simp only [List.cons_append, List.find?_cons, ha]
      exact ih (fun y hy => hl y (by simp [hy]))

/-- C4: a request that never receives a matching response is rejected with the
timeout error when its (fixed, 60 second) timeout fires, and its
PendingRequest is removed from the pending map; a response for that id
arriving after the timeout, and any message whose id is not in the pending
map, is discarded with no state mutation (`handleMessage` is total, so the
dispatcher cannot crash). -/
theorem c4_timeout_and_late_response
    (s : EssentiaWorkerManager) (ty : String) (pl : OutPayload) (now : Nat)
    (ms : List WireMsg)
    (hp : s.messageId ∉ s.pending)
    (hs : ∀ p ∈ s.settled, p.1 ≠ s.messageId)
    (hms : ∀ m ∈ ms, m.id ≠ s.messageId) :
    (sendMessage s ty pl now).2.2 = now + timeoutDelayMs ∧
    timeoutDelayMs = 60000 ∧
    settledOutcome
        (fireTimeout (ms.foldl handleMessage (sendMessage s ty pl now).1)
          (sendMessage s ty pl now).2.1)
        (sendMessage s ty pl now).2.1
      = some (Outcome.rejected "Worker message timeout") ∧
    (sendMessage s ty pl now).2.1 ∉
      (fireTimeout (ms.foldl handleMessage (sendMessage s ty pl now).1)
        (sendMessage s ty pl now).2.1).pending ∧
    (∀ m : WireMsg, m.id = (sendMessage s ty pl now).2.1 →
       handleMessage
           (fireTimeout (ms.foldl handleMessage (sendMessage s ty pl now).1)
             (sendMessage s ty pl now).2.1) m
         = fireTimeout (ms.foldl handleMessage (sendMessage s ty pl now).1)
             (sendMessage s ty pl now).2.1) ∧
    (∀ t : EssentiaWorkerManager, ∀ m : WireMsg,
       m.id ∉ t.pending → handleMessage t m = t) := by
  have hid : (sendMessage s ty pl now).2.1 = s.messageId := rfl
  have hc1 : ((sendMessage s ty pl now).1).pending.count s.messageId = 1 := by
    simp [sendMessage, List.count_append, List.count_eq_zero.mpr hp]
  have hs1 : ∀ p ∈ ((sendMessage s ty pl now).1).settled, p.1 ≠ s.messageId := hs
  obtain ⟨hc2, hs2⟩ :=
    foldl_handleMessage_invariant s.messageId ms (sendMessage s ty pl now).1
      hms hc1 hs1
  set s2 := ms.foldl handleMessage (sendMessage s ty pl now).1 with hs2def
  have hmem : s.messageId ∈ s2.pending := by
    rw [← List.count_pos_iff, hc2]; norm_num
  have hfire : fireTimeout s2 s.messageId =
      { s2 with pending := s2.pending.erase s.messageId
                settled := s2.settled ++
                  [(s.messageId, Outcome.rejected "Worker message timeout")] } := by
    simp [fireTimeout, hmem]
  have hnotmem : s.messageId ∉ (fireTimeout s2 s.messageId).pending := by
    rw [hfire]
    intro hcontra
    have := List.count_pos_iff.mpr hcontra
    rw [List.count_erase_self, hc2] at this
    simp at this
  refine ⟨rfl, rfl, ?_, ?_, ?_, ?_⟩
  · rw [hid, hfire]
    unfold settledOutcome
    rw [find?_append_last _ _ _ (fun y hy => ?_) (by simp)]
    · rfl
    · have := hs2 y hy
      simp [this]
  · rw [hid]; exact hnotmem
  · intro m hm
    apply handleMessage_skip
    rw [hm, hid]
    exact hnotmem
  · exact fun t m h => handleMessage_skip t m h

theorem c4_timeout_and_late_response_witness :
    (sendMessage { workerAlive := true, isInitialized := true, messageId := 2,
                   pending := [0], settled := [(1, Outcome.resolved
                     (WirePayload.initResult true ""))], posted := [] }
        "analyze" (OutPayload.analyzePayload none "f") 100).2.2
      = 100 + timeoutDelayMs ∧
    timeoutDelayMs = 60000 ∧
    settledOutcome
        (fireTimeout
          ([⟨"analysis-complete",
             WirePayload.analysisComplete
               { energy := 0, mood := 0, key := "C", scale := "major", tempo := 60,
                 loudness := -20, keyStrength := 0, sectionLabel := "hook" } "f", 0⟩].foldl
            handleMessage
            (sendMessage { workerAlive := true, isInitialized := true, messageId := 2,
                           pending := [0], settled := [(1, Outcome.resolved
                             (WirePayload.initResult true ""))], posted := [] }
              "analyze" (OutPayload.analyzePayload none "f") 100).1)
          (sendMessage { workerAlive := true, isInitialized := true, messageId := 2,
                         pending := [0], settled := [(1, Outcome.resolved
                           (WirePayload.initResult true ""))], posted := [] }
            "analyze" (OutPayload.analyzePayload none "f") 100).2.1)
        (sendMessage { workerAlive := true, isInitialized := true, messageId := 2,
                       pending := [0], settled := [(1, Outcome.resolved
                         (WirePayload.initResult true ""))], posted := [] }
          "analyze" (OutPayload.analyzePayload none "f") 100).2.1
      = some (Outcome.rejected "Worker message timeout") := by
  obtain ⟨h1, h2, h3, -⟩ :=
    c4_timeout_and_late_response
      { workerAlive := true, isInitialized := true, messageId := 2,
        pending := [0], settled := [(1, Outcome.resolved
          (WirePayload.initResult true ""))], posted := [] }
      "analyze" (OutPayload.analyzePayload none "f") 100
      [⟨"analysis-complete",
        WirePayload.analysisComplete
          { energy := 0, mood := 0, key := "C", scale := "major", tempo := 60,
            loudness := -20, keyStrength := 0, sectionLabel := "hook" } "f", 0⟩]
      (by decide) (by decide) (by decide)
  exact ⟨h1, h2, h3⟩

/-! ## Claim C6: channel termination

The claim says terminate() causes every outstanding PendingRequest to fail.
In the code (CacheManager.js line 322-329) `terminate` only calls
`worker.terminate()` and clears `worker` and `isInitialized`; it never touches
`pendingMessages` and rejects nothing.  Outstanding requests remain pending
and each one fails only later, when its own 60 second timeout fires.  The
second half of the claim holds: after terminate, `isInitialized` is false, so
`analyzeAudio` returns the synthetic mock immediately. -/

/-- C6 counterexample: a manager with request 0 outstanding.  After
`terminate`, request 0 is still in the pending map and no completion
(rejection) has been recorded for it — so termination did not make the
outstanding PendingRequest fail. -/
theorem c6_terminate_counterexample :
    (0 : Nat) ∈
      ({ workerAlive := true, isInitialized := true, messageId := 1,
         pending := [0], settled := [], posted := [] } :
        EssentiaWorkerManager).pending ∧
    (terminate { workerAlive := true, isInitialized := true, messageId := 1,
                 pending := [0], settled := [], posted := [] }).pending = [0] ∧
    (terminate { workerAlive := true, isInitialized := true, messageId := 1,
                 pending := [0], settled := [], posted := [] }).settled = [] := by
  decide

/-- C6 amended: `terminate()` tears down the worker (`workerAlive` and
`isInitialized` become false) but leaves the pending map and the completion
log untouched; each outstanding request fails only when its own timeout
fires (which removes it and rejects it with the timeout error); and every
`analyzeAudio` call made after `terminate()` returns a synthetic mock result
immediately, without posting anything.  Hypothesis: a real manager is
initialized only while a worker exists. -/
theorem c6_terminate_amended (s : EssentiaWorkerManager)
    (hinv : s.isInitialized = true → s.workerAlive = true) :
    (terminate s).workerAlive = false ∧
    (terminate s).isInitialized = false ∧
    (terminate s).pending = s.pending ∧
    (terminate s).settled = s.settled ∧
    (∀ id ∈ (terminate s).pending,
        (fireTimeout (terminate s) id).settled =
          (terminate s).settled ++ [(id, Outcome.rejected "Worker message timeout")] ∧
        (fireTimeout (terminate s) id).pending = (terminate s).pending.erase id) ∧
    (∀ buffer fileName rand now,
        analyzeAudioStart (terminate s) buffer fileName rand now =
          AnalyzeStep.immediate (generateMockAnalysis rand)) := by
  have hterm : (terminate s).workerAlive = false ∧
      (terminate s).isInitialized = false ∧
      (terminate s).pending = s.pending ∧
      (terminate s).settled = s.settled := by
    unfold terminate
    by_cases hw : s.workerAlive
    · simp [hw]
    · have hinit : s.isInitialized = false := by
        cases hii : s.isInitialized
        · rfl
        · exact absurd (hinv hii) hw
      simp [hw, hinit]
  refine ⟨hterm.1, hterm.2.1, hterm.2.2.1, hterm.2.2.2, ?_, ?_⟩
  · intro id hid
    unfold fireTimeout
    simp [hid]
  · intro buffer fileName rand now
    unfold analyzeAudioStart
    simp [hterm.2.1]

theorem c6_terminate_amended_witness :
    (terminate { workerAlive := true, isInitialized := true, messageId := 3,
                 pending := [1, 2], settled := [], posted := [] }).workerAlive = false ∧
    (terminate { workerAlive := true, isInitialized := true, messageId := 3,
                 pending := [1, 2], settled := [], posted := [] }).isInitialized = false ∧
    (terminate { workerAlive := true, isInitialized := true, messageId := 3,
                 pending := [1, 2], settled := [], posted := [] }).pending = [1, 2] ∧
    (fireTimeout (terminate { workerAlive := true, isInitialized := true, messageId := 3,
                              pending := [1, 2], settled := [], posted := [] }) 1).settled
      = [(1, Outcome.rejected "Worker message timeout")] ∧
    analyzeAudioStart
        (terminate { workerAlive := true, isInitialized := true, messageId := 3,
                     pending := [1, 2], settled := [], posted := [] })
        none "f" (fun _ => 0) 7
      = AnalyzeStep.immediate (generateMockAnalysis (fun _ => 0)) := by
  obtain ⟨h1, h2, h3, h4, h5, h6⟩ :=
    c6_terminate_amended
      { workerAlive := true, isInitialized := true, messageId := 3,
        pending := [1, 2], settled := [], posted := [] }
      (by decide)
  refine ⟨h1, h2, by rw [h3], ?_, h6 none "f" (fun _ => 0) 7⟩
  have := (h5 1 (by rw [h3]; decide)).1
  rw [this, h4]
  rfl
/-! ## Sorting lemmas for the eviction pass -/

def SortedLA (l : List (String × CacheEntry)) : Prop :=
  l.Pairwise (fun p q => p.2.lastAccessed ≤ q.2.lastAccessed)

theorem insertByLA_perm (p : String × CacheEntry) (l : List (String × CacheEntry)) :
    List.Perm (insertByLA p l) (p :: l) := by
  induction l with
  | nil => exact List.Perm.refl _
  | cons q qs ih =>
      unfold insertByLA
      split
      · exact List.Perm.refl _
      · exact (ih.cons q).trans (List.Perm.swap p q qs)

theorem sortByLastAccessed_perm (l : List (String × CacheEntry)) :
    List.Perm (sortByLastAccessed l) l := by
  induction l with
  | nil => exact List.Perm.refl _
  | cons p ps ih =>
      have hrec : sortByLastAccessed (p :: ps) = insertByLA p (sortByLastAccessed ps) := rfl
      rw [hrec]
      exact (insertByLA_perm p _).trans (ih.cons p)

theorem insertByLA_sorted (p : String × CacheEntry) (l : List (String × CacheEntry))
    (h : SortedLA l) : SortedLA (insertByLA p l) := by
  unfold SortedLA at h ⊢
  induction l with
  | nil => exact List.pairwise_singleton _ p
  | cons q qs ih =>
      rw [List.pairwise_cons] at h
      unfold insertByLA
      split
      · rename_i hpq
        rw [List.pairwise_cons]
        refine ⟨?_, List.pairwise_cons.mpr h⟩
        intro r hr
        rcases List.mem_cons.mp hr with rfl | hr
        · exact hpq
        · exact le_trans hpq (h.1 r hr)
      · rename_i hpq
        rw [List.pairwise_cons]
        refine ⟨?_, ih h.2⟩
        intro r hr
        have hmem := (insertByLA_perm p qs).mem_iff.mp hr
        rcases List.mem_cons.mp hmem with rfl | hr2
        · exact le_of_not_le hpq
        · exact h.1 r hr2

theorem sortByLastAccessed_sorted (l : List (String × CacheEntry)) :
    SortedLA (sortByLastAccessed l) := by
  induction l with
  | nil => exact List.Pairwise.nil
  | cons p ps ih => exact insertByLA_sorted p _ ih

theorem sortByLastAccessed_eq_of_sorted (l : List (String × CacheEntry))
    (h : SortedLA l) : sortByLastAccessed l = l := by
  induction l with
  | nil => rfl
  | cons p ps ih =>
      unfold SortedLA at h
      rw [List.pairwise_cons] at h
      have hrec : sortByLastAccessed (p :: ps) = insertByLA p (sortByLastAccessed ps) := rfl
      rw [hrec, ih h.2]
      cases ps with
      | nil => rfl
      | cons q qs =>
          unfold insertByLA
          rw [if_pos (h.1 q (by simp))]

/-! ## Lemmas about the object write and the prune pass -/

theorem objSet_mem (data : List (String × CacheEntry)) (k : String) (v : CacheEntry) :
    ∀ x ∈ objSet data k v, x = (k, v) ∨ (x ∈ data ∧ x.1 ≠ k) := by
  intro x hx
  unfold objSet at hx
  by_cases hc : data.any (fun p => p.1 == k)
  · rw [if_pos hc] at hx
    obtain ⟨p, hp, hpx⟩ := List.mem_map.mp hx
    by_cases hk : p.1 = k
    · left
      rw [← hpx]
      simp [hk]
    · right
      have hxp : x = p := by rw [← hpx]; simp [hk]
      rw [hxp]
      exact ⟨hp, hk⟩
  · rw [if_neg hc] at hx
    rcases List.mem_append.mp hx with hx2 | hx2
    · right
      refine ⟨hx2, fun hk => ?_⟩
      rw [List.any_eq_true] at hc
      exact hc ⟨x, hx2, by simp [hk]⟩
    · left
      exact List.mem_singleton.mp hx2

theorem objSet_self_mem (data : List (String × CacheEntry)) (k : String) (v : CacheEntry) :
    (k, v) ∈ objSet data k v := by
  unfold objSet
  by_cases hc : data.any (fun p => p.1 == k)
  · rw [if_pos hc]
    rw [List.any_eq_true] at hc
    obtain ⟨p, hp, hpk⟩ := hc
    refine List.mem_map.mpr ⟨p, hp, ?_⟩
    simp at hpk
    simp [hpk]
  · rw [if_neg hc]
    exact List.mem_append.mpr (Or.inr (by simp))

theorem objSet_append_of_fresh (data : List (String × CacheEntry)) (k : String)
    (v : CacheEntry) (h : ∀ p ∈ data, p.1 ≠ k) :
    objSet data k v = data ++ [(k, v)] := by
  unfold objSet
  rw [if_neg]
  intro hany
  rw [List.any_eq_true] at hany
  obtain ⟨p, hp, hpk⟩ := hany
  simp at hpk
  exact h p hp hpk

theorem find?_of_mem_unique {α : Type} (l : List α) (p : α → Bool) (v : α)
    (hex : ∃ x ∈ l, p x = true) (huniq : ∀ x ∈ l, p x = true → x = v) :
    l.find? p = some v := by
  induction l with
  | nil => exact absurd hex (by simp)
  | cons a as ih =>
      cases hpa : p a with
      | true =>
          rw [List.find?_cons, hpa]
          rw [huniq a (by simp) hpa]
      | false =>
          rw [List.find?_cons, hpa]
          obtain ⟨x, hx, hpx⟩ := hex
          rcases List.mem_cons.mp hx with rfl | hx2
          · rw [hpa] at hpx; cases hpx
          · exact ih ⟨x, hx2, hpx⟩ (fun y hy hpy => huniq y (by simp [hy]) hpy)

/-- The invariant used for the round-trip proof: every entry stored under key
`k` equals `(k, e)`, every entry under another key is strictly colder than
`t`, and some entry under `k` is present. -/
def keptP (k : String) (e : CacheEntry) (t : Nat)
    (data : List (String × CacheEntry)) : Prop :=
  (∀ x ∈ data, x.1 = k → x = (k, e)) ∧
  (∀ x ∈ data, x.1 ≠ k → x.2.lastAccessed < t) ∧
  (∃ x ∈ data, x.1 = k)

theorem pruneCache_subset (c : CacheStore) :
    ∀ x ∈ (pruneCache c).data, x ∈ c.data := by
  intro x hx
  unfold pruneCache at hx
  have h1 : x ∈ sortByLastAccessed c.data := List.mem_of_mem_drop hx
  exact (sortByLastAccessed_perm c.data).mem_iff.mp h1

theorem pruneCache_keeps (c : CacheStore) (k : String) (e : CacheEntry) (t : Nat)
    (h : keptP k e t c.data) (het : e.lastAccessed = t) :
    keptP k e t (pruneCache c).data := by
  obtain ⟨huniq, hlt, hex⟩ := h
  refine ⟨fun x hx => huniq x (pruneCache_subset c x hx),
          fun x hx => hlt x (pruneCache_subset c x hx), ?_⟩
  have hperm := sortByLastAccessed_perm c.data
  obtain ⟨w, hw, hwk⟩ := hex
  have hkemem : (k, e) ∈ sortByLastAccessed c.data :=
    hperm.mem_iff.mpr (huniq w hw hwk ▸ hw)
  have h350 : maxCacheSize * 7 / 10 = 350 := by norm_num [maxCacheSize]
  have hpc : (pruneCache c).data =
      (sortByLastAccessed c.data).drop
        ((sortByLastAccessed c.data).length - maxCacheSize * 7 / 10) := rfl
  set sorted := sortByLastAccessed c.data with hsorteddef
  set m := sorted.length - maxCacheSize * 7 / 10 with hmdef
  have hlen : 0 < sorted.length := by
    rw [hperm.length_eq]
    exact List.length_pos.mpr (List.ne_nil_of_mem hw)
  have hdne : sorted.drop m ≠ [] := by
    intro hemp
    have hle := congrArg List.length hemp
    rw [List.length_drop] at hle
    simp only [List.length_nil] at hle
    omega
  have hsplit : sorted.take m ++ sorted.drop m = sorted := List.take_append_drop m sorted
  have hcross : ∀ a ∈ sorted.take m, ∀ b ∈ sorted.drop m,
      a.2.lastAccessed ≤ b.2.lastAccessed := by
    have hpw := sortByLastAccessed_sorted c.data
    unfold SortedLA at hpw
    rw [← hsorteddef, ← hsplit] at hpw
    exact fun a ha b hb => (List.pairwise_append.mp hpw).2.2 a ha b hb
  rw [hpc]
  rcases List.mem_append.mp (hsplit ▸ hkemem) with hin | hin
  · obtain ⟨b, hb⟩ := List.exists_mem_of_ne_nil (sorted.drop m) hdne
    by_cases hbk : b.1 = k
    · exact ⟨b, hb, hbk⟩
    · exfalso
      have hble := hcross (k, e) hin b hb
      have hbmem : b ∈ c.data := hperm.mem_iff.mp (List.mem_of_mem_drop hb)
      have hblt := hlt b hbmem hbk
      simp only at hble
      rw [het] at hble
      omega
  · exact ⟨(k, e), hin, rfl⟩

theorem saveCache_cases (stringify : CacheStore → String) (blobSize : String → Nat)
    (c : CacheStore) (st : Storage) :
    (saveCache stringify blobSize c st).1 = c ∨
    (saveCache stringify blobSize c st).1 = pruneCache c ∨
    (saveCache stringify blobSize c st).1 = pruneCache (pruneCache c) := by
  by_cases h1 : blobSize (stringify c) > sizeBudget <;>
    by_cases h2 : blobSize (stringify c) ≤ st.quota <;>
      simp [saveCache, setItem, h1, h2]

theorem saveCache_keptP (stringify : CacheStore → String) (blobSize : String → Nat)
    (c : CacheStore) (st : Storage) (k : String) (e : CacheEntry) (t : Nat)
    (het : e.lastAccessed = t) (h : keptP k e t c.data) :
    keptP k e t (saveCache stringify blobSize c st).1.data := by
  rcases saveCache_cases stringify blobSize c st with hc | hc | hc <;> rw [hc]
  · exact h
  · exact pruneCache_keeps c k e t h het
  · exact pruneCache_keeps _ k e t (pruneCache_keeps c k e t h het) het

theorem setCachedAnalysis_keptP (stringify : CacheStore → String)
    (blobSize : String → Nat) (f : AudioFile) (a : Option AnalysisResult)
    (t : Nat) (c : CacheStore) (st : Storage)
    (hfresh : ∀ p ∈ c.data, p.1 ≠ generateFileKey f → p.2.lastAccessed < t) :
    keptP (generateFileKey f)
      { fileName := f.name, path := f.path, size := f.size,
        analysis := a, cachedAt := t, lastAccessed := t } t
      (setCachedAnalysis stringify blobSize f a t c st).1.data := by
  have hbase : keptP (generateFileKey f)
      { fileName := f.name, path := f.path, size := f.size,
        analysis := a, cachedAt := t, lastAccessed := t } t
      (objSet c.data (generateFileKey f)
        { fileName := f.name, path := f.path, size := f.size,
          analysis := a, cachedAt := t, lastAccessed := t }) := by
    refine ⟨?_, ?_, ⟨_, objSet_self_mem c.data _ _, rfl⟩⟩
    · intro x hx hxk
      rcases objSet_mem c.data _ _ x hx with h | ⟨-, hne⟩
      · exact h
      · exact absurd hxk hne
    · intro x hx hxk
      rcases objSet_mem c.data _ _ x hx with h | ⟨hmem, hne⟩
      · rw [h] at hxk; simp at hxk
      · exact hfresh x hmem hne
  simp only [setCachedAnalysis]
  apply saveCache_keptP _ _ _ _ _ _ _ rfl
  split
  · exact pruneCache_keeps _ _ _ _ hbase rfl
  · exact hbase

theorem getCached_of_keptP (g : AudioFile) (tg : Nat) (c : CacheStore)
    (e : CacheEntry) (t : Nat)
    (h : keptP (generateFileKey g) e t c.data) :
    (getCachedAnalysis g tg c).1 = e.analysis := by
  obtain ⟨huniq, -, hex⟩ := h
  have hfind : c.data.find? (fun p => p.1 == generateFileKey g)
      = some (generateFileKey g, e) := by
    apply find?_of_mem_unique
    · obtain ⟨x, hx, hxk⟩ := hex
      exact ⟨x, hx, by simp [hxk]⟩
    · intro x hx hpx
      simp at hpx
      exact huniq x hx hpx
  simp [getCachedAnalysis, objGet, hfind]

theorem getCached_nonkey_lt (g : AudioFile) (tg : Nat) (c : CacheStore) (t : Nat)
    (hlt : ∀ x ∈ c.data, x.1 ≠ generateFileKey g → x.2.lastAccessed < t) :
    ∀ x ∈ (getCachedAnalysis g tg c).2.data,
      x.1 ≠ generateFileKey g → x.2.lastAccessed < t := by
  intro x hx hxk
  simp only [getCachedAnalysis] at hx
  cases hog : objGet c.data (generateFileKey g) with
  | none =>
      rw [hog] at hx
      exact hlt x hx hxk
  | some e0 =>
      rw [hog] at hx
      simp only at hx
      obtain ⟨p, hp, hpx⟩ := List.mem_map.mp hx
      by_cases hpk : p.1 = generateFileKey g
      · exfalso
        apply hxk
        rw [← hpx]
        simp [hpk]
      · have hxp : x = p := by rw [← hpx]; simp [hpk]
        rw [hxp]
        exact hlt p hp hpk

/-! ## Claim C8: cache round-trip -/

/-- C8: for every store and AnalysisResult, `set(file, analysis)` followed by
`get(file2)` for any `file2` with the same `(path, size)` returns exactly that
AnalysisResult, and repeating `set` with the same value and calling `get`
again still returns it.  Hypotheses: entries stored under other keys are
strictly older than the first write time (`Date.now()` is monotone during a
session), and the second write is not earlier than the first. -/
theorem c8_cache_roundtrip (stringify : CacheStore → String) (blobSize : String → Nat)
    (f g : AudioFile) (a : AnalysisResult) (t1 t2 tg1 tg2 : Nat)
    (c : CacheStore) (st st2 : Storage)
    (hpth : g.path = f.path) (hsze : g.size = f.size)
    (hfresh : ∀ p ∈ c.data, p.1 ≠ generateFileKey f → p.2.lastAccessed < t1)
    (ht : t1 ≤ t2) :
    (getCachedAnalysis g tg1
        (setCachedAnalysis stringify blobSize f (some a) t1 c st).1).1 = some a ∧
    (getCachedAnalysis g tg2
        (setCachedAnalysis stringify blobSize f (some a) t2
          (getCachedAnalysis g tg1
            (setCachedAnalysis stringify blobSize f (some a) t1 c st).1).2
          st2).1).1 = some a := by
  have hkey : generateFileKey g = generateFileKey f := by
    simp [generateFileKey, hpth, hsze]
  have h1 := setCachedAnalysis_keptP stringify blobSize f (some a) t1 c st hfresh
  constructor
  · have hg := getCached_of_keptP g tg1 _ _ t1 (by rw [hkey]; exact h1)
    simpa using hg
  · have hlt1 : ∀ x ∈ (setCachedAnalysis stringify blobSize f (some a) t1 c st).1.data,
        x.1 ≠ generateFileKey f → x.2.lastAccessed < t1 := h1.2.1
    have hlt2 : ∀ x ∈ (getCachedAnalysis g tg1
          (setCachedAnalysis stringify blobSize f (some a) t1 c st).1).2.data,
        x.1 ≠ generateFileKey f → x.2.lastAccessed < t2 := by
      intro x hx hxk
      have hxlt := getCached_nonkey_lt g tg1 _ t1
        (by rw [hkey]; exact hlt1) x hx (by rw [hkey]; exact hxk)
      omega
    have h2 := setCachedAnalysis_keptP stringify blobSize f (some a) t2 _ st2 hlt2
    have hg := getCached_of_keptP g tg2 _ _ t2 (by rw [hkey]; exact h2)
    simpa using hg

def c8wFile : AudioFile := { path := "p", size := 1, name := "n" }

def c8wA : AnalysisResult :=
  { energy := 0, mood := 0, key := "C", scale := "major", tempo := 120,
    loudness := -20, keyStrength := 1, sectionLabel := "hook" }

theorem c8_cache_roundtrip_witness :
    (getCachedAnalysis c8wFile 12
        (setCachedAnalysis (fun _ => "") (fun _ => 0) c8wFile (some c8wA) 10
          freshCache { quota := 1000, item := none, attempts := 0 }).1).1 = some c8wA ∧
    (getCachedAnalysis c8wFile 13
        (setCachedAnalysis (fun _ => "") (fun _ => 0) c8wFile (some c8wA) 11
          (getCachedAnalysis c8wFile 12
            (setCachedAnalysis (fun _ => "") (fun _ => 0) c8wFile (some c8wA) 10
              freshCache { quota := 1000, item := none, attempts := 0 }).1).2
          { quota := 1000, item := none, attempts := 0 }).1).1 = some c8wA :=
  c8_cache_roundtrip (fun _ => "") (fun _ => 0) c8wFile c8wFile c8wA 10 11 12 13
    freshCache { quota := 1000, item := none, attempts := 0 }
    { quota := 1000, item := none, attempts := 0 }
    rfl rfl (by intro p hp _; simp [freshCache] at hp) (by norm_num)

/-! ## Claim C2: eviction bound and retention -/

/-- The entry built by `setCachedAnalysis` (CacheManager.js line 101-108). -/
def mkCacheEntry (f : AudioFile) (a : Option AnalysisResult) (t : Nat) : CacheEntry :=
  { fileName := f.name, path := f.path, size := f.size,
    analysis := a, cachedAt := t, lastAccessed := t }

/-- The keyed entry produced by one insertion of the C2 scenario. -/
def insEntry (i : AudioFile × AnalysisResult × Nat) : String × CacheEntry :=
  (generateFileKey i.1, mkCacheEntry i.1 (some i.2.1) i.2.2)

/-- Calling `setCachedAnalysis` once per list element, in order: the C2
scenario `set` is called `ins.length` times.  Each element carries the file,
the analysis and the `Date.now()` value of its call. -/
def runSets (stringify : CacheStore → String) (blobSize : String → Nat)
    (ins : List (AudioFile × AnalysisResult × Nat)) (c : CacheStore) (st : Storage) :
    CacheStore × Storage :=
  ins.foldl
    (fun p i => setCachedAnalysis stringify blobSize i.1 (some i.2.1) i.2.2 p.1 p.2)
    (c, st)

theorem saveCache_no_prune (stringify : CacheStore → String) (blobSize : String → Nat)
    (c : CacheStore) (st : Storage)
    (h1 : blobSize (stringify c) ≤ sizeBudget)
    (h2 : blobSize (stringify c) ≤ st.quota) :
    saveCache stringify blobSize c st =
      (c, { st with item := some (stringify c), attempts := st.attempts + 1 }) := by
  simp [saveCache, setItem, Nat.not_lt.mpr h1, h2]

theorem setCachedAnalysis_fresh_eq (stringify : CacheStore → String)
    (blobSize : String → Nat) (f : AudioFile) (a : Option AnalysisResult)
    (t : Nat) (c : CacheStore) (st : Storage)
    (hkey : ∀ p ∈ c.data, p.1 ≠ generateFileKey f)
    (hlen : c.data.length + 1 ≤ maxCacheSize)
    (hb : ∀ s, blobSize s ≤ sizeBudget)
    (hq : ∀ s, blobSize s ≤ st.quota) :
    setCachedAnalysis stringify blobSize f a t c st =
      (⟨c.version, c.data ++ [(generateFileKey f, mkCacheEntry f a t)]⟩,
       { st with
           item := some (stringify
             ⟨c.version, c.data ++ [(generateFileKey f, mkCacheEntry f a t)]⟩)
           attempts := st.attempts + 1 }) := by
  have hobj : objSet c.data (generateFileKey f) (mkCacheEntry f a t)
      = c.data ++ [(generateFileKey f, mkCacheEntry f a t)] :=
    objSet_append_of_fresh c.data _ _ hkey
  have hlen2 : ¬ ((c.data ++ [(generateFileKey f, mkCacheEntry f a t)]).length
      > maxCacheSize) := by
    rw [List.length_append]
    simp only [List.length_singleton]
    omega
  simp only [setCachedAnalysis]
  rw [show ({ fileName := f.name, path := f.path, size := f.size,
              analysis := a, cachedAt := t, lastAccessed := t } : CacheEntry)
      = mkCacheEntry f a t from rfl]
  rw [hobj]
  rw [if_neg hlen2]
  exact saveCache_no_prune stringify blobSize _ st (hb _) (hq _)

theorem runSets_fresh (stringify : CacheStore → String) (blobSize : String → Nat)
    (ins : List (AudioFile × AnalysisResult × Nat)) :
    ∀ (c : CacheStore) (st : Storage),
      (∀ i ∈ ins, ∀ p ∈ c.data, p.1 ≠ generateFileKey i.1) →
      ((ins.map fun i => generateFileKey i.1).Nodup) →
      c.data.length + ins.length ≤ maxCacheSize →
      (∀ s, blobSize s ≤ sizeBudget) →
      (∀ s, blobSize s ≤ st.quota) →
      (runSets stringify blobSize ins c st).1 =
        ⟨c.version, c.data ++ ins.map insEntry⟩ ∧
      (runSets stringify blobSize ins c st).2.quota = st.quota := by
  induction ins with
  | nil =>
      intro c st _ _ _ _ _
      constructor
      · simp [runSets]
      · rfl
  | cons i rest ih =>
      intro c st h1 h2 h3 hb hq
      have hset := setCachedAnalysis_fresh_eq stringify blobSize i.1 (some i.2.1)
        i.2.2 c st (h1 i (by simp)) (by simp at h3; omega) hb hq
      have hstep : runSets stringify blobSize (i :: rest) c st =
          runSets stringify blobSize rest
            (setCachedAnalysis stringify blobSize i.1 (some i.2.1) i.2.2 c st).1
            (setCachedAnalysis stringify blobSize i.1 (some i.2.1) i.2.2 c st).2 := by
        simp [runSets, List.foldl_cons]
      rw [List.map_cons, List.nodup_cons] at h2
      have hfresh2 : ∀ j ∈ rest,
          ∀ p ∈ (c.data ++ [(generateFileKey i.1, mkCacheEntry i.1 (some i.2.1) i.2.2)]),
            p.1 ≠ generateFileKey j.1 := by
        intro j hj p hp
        rcases List.mem_append.mp hp with hp2 | hp2
        · exact h1 j (by simp [hj]) p hp2
        · rcases List.mem_singleton.mp hp2 with rfl
          intro hcontra
          exact h2.1 (List.mem_map.mpr ⟨j, hj, hcontra.symm⟩)
      obtain ⟨ihr1, ihr2⟩ := ih
        ⟨c.version, c.data ++ [(generateFileKey i.1, mkCacheEntry i.1 (some i.2.1) i.2.2)]⟩
        { st with
            item := some (stringify
              ⟨c.version,
               c.data ++ [(generateFileKey i.1, mkCacheEntry i.1 (some i.2.1) i.2.2)]⟩)
            attempts := st.attempts + 1 }
        hfresh2 h2.2
        (by simp only [List.length_append, List.length_singleton]
            simp at h3
            omega)
        hb hq
      rw [hstep, hset]
      refine ⟨?_, ihr2⟩
      rw [ihr1]
      simp [insEntry, List.append_assoc]

theorem pruneCache_eq_of_sorted (c : CacheStore) (h : SortedLA c.data) :
    pruneCache c =
      ⟨c.version, c.data.drop (c.data.length - maxCacheSize * 7 / 10)⟩ := by
  simp only [pruneCache]
  rw [sortByLastAccessed_eq_of_sorted _ h]

/-- C2: starting from an empty store, calling `set` `maxCacheSize + 1` times
with pairwise distinct cache keys leaves exactly
`floor(maxCacheSize * 0.7) = 350` entries, and the retained entries are
precisely the suffix of insertions with the most recent `lastAccessed` (every
evicted entry is strictly older than every retained one).  Hypotheses: the
`Date.now()` stamps of the calls are strictly increasing, and the serialized
store stays within the 4.5 MiB budget and the storage quota throughout (so
`saveCache` never triggers its independent persistence-size eviction, which
is the regime the claim describes). -/
theorem c2_eviction_bound_and_retention (stringify : CacheStore → String)
    (blobSize : String → Nat) (st : Storage)
    (ins : List (AudioFile × AnalysisResult × Nat))
    (hlen : ins.length = maxCacheSize + 1)
    (hkeys : (ins.map fun i => generateFileKey i.1).Nodup)
    (htimes : (ins.map fun i => i.2.2).Pairwise (· < ·))
    (hb : ∀ s, blobSize s ≤ sizeBudget)
    (hq : ∀ s, blobSize s ≤ st.quota) :
    (runSets stringify blobSize ins freshCache st).1.data.length
      = maxCacheSize * 7 / 10 ∧
    (runSets stringify blobSize ins freshCache st).1.data =
      (ins.map insEntry).drop (ins.length - maxCacheSize * 7 / 10) ∧
    (∀ p ∈ (runSets stringify blobSize ins freshCache st).1.data,
       ∀ q ∈ (ins.map insEntry).take (ins.length - maxCacheSize * 7 / 10),
         q.2.lastAccessed < p.2.lastAccessed) := by
  have h350 : maxCacheSize * 7 / 10 = 350 := by norm_num [maxCacheSize]
  have h500 : maxCacheSize = 500 := rfl
  obtain ⟨z, hz⟩ : ∃ z, ins.drop 500 = [z] := by
    apply List.length_eq_one.mp
    rw [List.length_drop, hlen, h500]
  have hsplit : ins.take 500 ++ [z] = ins := by
    rw [← hz]; exact List.take_append_drop 500 ins
  have htakelen : (ins.take 500).length = 500 := by
    rw [List.length_take, hlen, h500]
    omega
  have hmapsplit : (ins.map fun i => generateFileKey i.1) =
      ((ins.take 500).map fun i => generateFileKey i.1) ++ [generateFileKey z.1] := by
    conv_lhs => rw [← hsplit]
    simp
  rw [hmapsplit] at hkeys
  obtain ⟨hnodup500, -, hdisj⟩ := List.nodup_append.mp hkeys
  obtain ⟨hc500, hq500⟩ := runSets_fresh stringify blobSize (ins.take 500) freshCache st
    (by intro i _ p hp; simp [freshCache] at hp)
    hnodup500
    (by rw [htakelen]; simp [freshCache, maxCacheSize])
    hb hq
  have hc500d : (runSets stringify blobSize (ins.take 500) freshCache st).1.data
      = (ins.take 500).map insEntry := by
    rw [hc500]; simp [freshCache]
  have hrun : runSets stringify blobSize ins freshCache st =
      setCachedAnalysis stringify blobSize z.1 (some z.2.1) z.2.2
        (runSets stringify blobSize (ins.take 500) freshCache st).1
        (runSets stringify blobSize (ins.take 500) freshCache st).2 := by
    conv_lhs => rw [← hsplit]
    simp [runSets, List.foldl_append]
  set c500 := (runSets stringify blobSize (ins.take 500) freshCache st).1 with hc500def
  set st500 := (runSets stringify blobSize (ins.take 500) freshCache st).2 with hst500def
  have hkfresh : ∀ p ∈ c500.data, p.1 ≠ generateFileKey z.1 := by
    rw [hc500d]
    intro p hp
    obtain ⟨j, hj, rfl⟩ := List.mem_map.mp hp
    intro hc
    exact hdisj (List.mem_map.mpr ⟨j, hj, rfl⟩) (by rw [← hc]; simp [insEntry])
  have hobj : objSet c500.data (generateFileKey z.1)
        (mkCacheEntry z.1 (some z.2.1) z.2.2)
      = c500.data ++ [insEntry z] :=
    objSet_append_of_fresh _ _ _ hkfresh
  have hdata1 : c500.data ++ [insEntry z] = ins.map insEntry := by
    rw [hc500d]
    conv_rhs => rw [← hsplit]
    simp
  have hlen501 : (ins.map insEntry).length = 501 := by
    rw [List.length_map, hlen, h500]
  have hsorted : SortedLA (ins.map insEntry) := by
    unfold SortedLA
    rw [List.pairwise_map]
    rw [List.pairwise_map] at htimes
    exact htimes.imp (fun h => le_of_lt h)
  have hprune : pruneCache ⟨c500.version, ins.map insEntry⟩ =
      ⟨c500.version,
       (ins.map insEntry).drop ((ins.map insEntry).length - maxCacheSize * 7 / 10)⟩ :=
    pruneCache_eq_of_sorted ⟨c500.version, ins.map insEntry⟩ hsorted
  have hset : setCachedAnalysis stringify blobSize z.1 (some z.2.1) z.2.2 c500 st500 =
      saveCache stringify blobSize
        (pruneCache ⟨c500.version, ins.map insEntry⟩) st500 := by
    simp only [setCachedAnalysis]
    rw [show ({ fileName := z.1.name, path := z.1.path, size := z.1.size,
                analysis := some z.2.1, cachedAt := z.2.2, lastAccessed := z.2.2 } :
          CacheEntry)
        = mkCacheEntry z.1 (some z.2.1) z.2.2 from rfl]
    rw [hobj, hdata1]
    rw [if_pos (by rw [hlen501, h500]; norm_num)]
  have hqst500 : ∀ s, blobSize s ≤ st500.quota := fun s => by
    rw [hq500]; exact hq s
  have hsave := saveCache_no_prune stringify blobSize
    (pruneCache ⟨c500.version, ins.map insEntry⟩) st500
    (hb _) (hqst500 _)
  have hfinal : (runSets stringify blobSize ins freshCache st).1.data =
      (ins.map insEntry).drop (ins.length - maxCacheSize * 7 / 10) := by
    rw [hrun, hset, hsave, hprune]
    simp only [List.length_map]
  refine ⟨?_, hfinal, ?_⟩
  · rw [hfinal, List.length_drop, List.length_map, hlen, h350, h500]
  · intro p hp q hq2
    have hstrict : List.Pairwise
        (fun p q => p.2.lastAccessed < q.2.lastAccessed) (ins.map insEntry) := by
      rw [List.pairwise_map]
      rw [List.pairwise_map] at htimes
      exact htimes
    rw [← List.take_append_drop (ins.length - maxCacheSize * 7 / 10) (ins.map insEntry)]
      at hstrict
    rw [hfinal] at hp
    exact (List.pairwise_append.mp hstrict).2.2 q hq2 p hp

def c2wFile (i : Nat) : AudioFile :=
  { path := String.mk (List.replicate i 'a'), size := 7, name := "w" }

def c2wA : AnalysisResult :=
  { energy := 0, mood := 0, key := "C", scale := "major", tempo := 120,
    loudness := -20, keyStrength := 1, sectionLabel := "hook" }

def c2wIns : List (AudioFile × AnalysisResult × Nat) :=
  (List.range (maxCacheSize + 1)).map (fun i => (c2wFile i, c2wA, i))

theorem c2wKeyLen (i : Nat) : (generateFileKey (c2wFile i)).length = i + 2 := by
  simp only [generateFileKey, c2wFile, String.length_append]
  have h1 : (String.mk (List.replicate i 'a')).length = i := by
    show (List.replicate i 'a').length = i
    simp
  rw [h1]
  rfl

theorem c2wKey_inj : Function.Injective (fun i => generateFileKey (c2wFile i)) := by
  intro i j h
  have h2 := congrArg String.length h
  simp only at h2
  rw [c2wKeyLen, c2wKeyLen] at h2
  omega

theorem c2wKeysNodup : (c2wIns.map fun i => generateFileKey i.1).Nodup := by
  simp only [c2wIns, List.map_map]
  exact List.Nodup.map c2wKey_inj (List.nodup_range _)

theorem c2wTimes : (c2wIns.map fun i => i.2.2).Pairwise (· < ·) := by
  have hmap : (c2wIns.map fun i => i.2.2) = List.range (maxCacheSize + 1) := by
    simp only [c2wIns, List.map_map]
    rw [show ((fun (i : AudioFile × AnalysisResult × Nat) => i.2.2) ∘
        fun i => (c2wFile i, c2wA, i)) = fun i => i from rfl]
    simp
  rw [hmap]
  exact List.pairwise_lt_range _

theorem c2_eviction_bound_and_retention_witness :
    (runSets (fun _ => "") (fun _ => 0) c2wIns freshCache
        { quota := 0, item := none, attempts := 0 }).1.data.length
      = maxCacheSize * 7 / 10 ∧
    (runSets (fun _ => "") (fun _ => 0) c2wIns freshCache
        { quota := 0, item := none, attempts := 0 }).1.data =
      (c2wIns.map insEntry).drop (c2wIns.length - maxCacheSize * 7 / 10) :=
  have h := c2_eviction_bound_and_retention (fun _ => "") (fun _ => 0)
    { quota := 0, item := none, attempts := 0 } c2wIns
    (by simp [c2wIns])
    c2wKeysNodup c2wTimes
    (fun _ => Nat.zero_le _) (fun _ => Nat.zero_le _)
  ⟨h.1, h.2.1⟩

/-! ## Claim C7: persistence-size policy

The code (CacheManager.js line 39-50) computes `serialized = JSON.stringify(
this.cache)` first, prunes the in-memory store when the estimated size exceeds
the 4.5 MiB budget, and then calls `localStorage.setItem(storageKey,
serialized)` — with the variable computed before the prune.  So on the
pre-emptive-eviction path the bytes written are the serialization of the
PRE-eviction store, not of the post-eviction store as the claim states.  Only
the retry after a QuotaExceededError serializes the store afresh. -/

def c7wStringify : CacheStore → String :=
  fun cc => String.intercalate "," (cc.data.map Prod.fst)

def c7wBlob : String → Nat := fun s => if s = "a,b" then 4718593 else 0

def c7wStore : CacheStore :=
  { version := "1.0",
    data := [("a", { fileName := "fa", path := "pa", size := 1,
                     analysis := none, cachedAt := 5, lastAccessed := 5 }),
             ("b", { fileName := "fb", path := "pb", size := 2,
                     analysis := none, cachedAt := 3, lastAccessed := 3 })] }

def c7wStorage : Storage := { quota := 5000000, item := none, attempts := 0 }

/-- C7 counterexample: a store whose serialized size (4718593 bytes) exceeds
the 4.5 MiB budget.  Eviction is indeed triggered before the write (the
resulting in-memory store is the pruned one — here the prune reorders the two
entries by `lastAccessed`), but the bytes written are the serialization of
the original store, which differs from the serialization of the post-eviction
store — contradicting the claim that the bytes written are the serialization
of the post-eviction store. -/
theorem c7_stale_serialization_counterexample :
    c7wBlob (c7wStringify c7wStore) > sizeBudget ∧
    (saveCache c7wStringify c7wBlob c7wStore c7wStorage).1 = pruneCache c7wStore ∧
    (saveCache c7wStringify c7wBlob c7wStore c7wStorage).2.item
      = some (c7wStringify c7wStore) ∧
    c7wStringify ((saveCache c7wStringify c7wBlob c7wStore c7wStorage).1)
      ≠ c7wStringify c7wStore := by
  decide

/-- C7 amended: when the serialized byte size exceeds the 4.5 MiB budget,
eviction runs before the write, but the bytes written by that first attempt
are the serialization computed BEFORE eviction; if the first write fails on
storage quota, eviction runs (again) and the write is retried exactly once
(the attempt counter grows by exactly two) with a FRESH serialization of the
by-then pruned store; a failure of the retry is swallowed, leaving the
persisted value unchanged; in every case `saveCache` returns normally and the
in-memory store is the correctly pruned store. -/
theorem c7_amended_persistence_policy (stringify : CacheStore → String)
    (blobSize : String → Nat) (c : CacheStore) (st : Storage) :
    (blobSize (stringify c) > sizeBudget → blobSize (stringify c) ≤ st.quota →
       saveCache stringify blobSize c st =
         (pruneCache c,
          { st with item := some (stringify c), attempts := st.attempts + 1 })) ∧
    (blobSize (stringify c) > sizeBudget → ¬ blobSize (stringify c) ≤ st.quota →
       blobSize (stringify (pruneCache (pruneCache c))) ≤ st.quota →
       saveCache stringify blobSize c st =
         (pruneCache (pruneCache c),
          { st with item := some (stringify (pruneCache (pruneCache c))),
                    attempts := st.attempts + 1 + 1 })) ∧
    (blobSize (stringify c) > sizeBudget → ¬ blobSize (stringify c) ≤ st.quota →
       ¬ blobSize (stringify (pruneCache (pruneCache c))) ≤ st.quota →
       saveCache stringify blobSize c st =
         (pruneCache (pruneCache c),
          { st with attempts := st.attempts + 1 + 1 })) ∧
    (¬ blobSize (stringify c) > sizeBudget → ¬ blobSize (stringify c) ≤ st.quota →
       blobSize (stringify (pruneCache c)) ≤ st.quota →
       saveCache stringify blobSize c st =
         (pruneCache c,
          { st with item := some (stringify (pruneCache c)),
                    attempts := st.attempts + 1 + 1 })) := by
  refine ⟨?_, ?_, ?_, ?_⟩
  · intro h1 h2
    simp [saveCache, setItem, h1, h2]
  · intro h1 h2 h3
    simp [saveCache, setItem, h1, h2, h3]
  · intro h1 h2 h3
    simp [saveCache, setItem, h1, h2, h3]
  · intro h1 h2 h3
    simp [saveCache, setItem, h1, h2, h3]

theorem c7_amended_persistence_policy_witness :
    saveCache c7wStringify c7wBlob c7wStore c7wStorage =
      (pruneCache c7wStore,
       { c7wStorage with item := some (c7wStringify c7wStore),
                         attempts := c7wStorage.attempts + 1 }) :=
  (c7_amended_persistence_policy c7wStringify c7wBlob c7wStore c7wStorage).1
    (by decide) (by decide)

/-! ## The worker (src/js/essentia.worker.js) and the batch processor (src/sketch.js) -/

/-- The essentia.worker.js onmessage handler, as the reply it posts for a
request.  The essentia.js DSP calls inside its `try` block are abstracted by
the `essentiaAnalyze` oracle; `wrand` is the worker-side `Math.random()`
stream.  For an analyze request: an uninitialized worker returns a mock
result (the `!isInitialized` check comes first); with a null `audioBuffer`,
reading `audioBuffer.length` (line 37, inside the try block of the worker
`analyzeAudio`) throws a TypeError that the catch at line 127-130 converts
to a worker-side mock, so the reply is analysis-complete carrying that mock
(the outer onmessage catch never fires on this path); otherwise an
analysis-complete response with the real analysis is posted.  Every reply
echoes the request id. -/
def workerOnMessage (essentiaAnalyze : List Rat → AnalysisResult)
    (wrand : Nat → Rat) (workerInit : Bool) (msg : OutboundMsg) : WireMsg :=
  match msg.payload with
  | OutPayload.initPayload =>
      { type := "init-complete", payload := WirePayload.initResult true "",
        id := msg.id }
  | OutPayload.analyzePayload buf fileName =>
      if workerInit = false then
        { type := "analysis-complete",
          payload := WirePayload.analysisComplete (generateMockAnalysis wrand) fileName,
          id := msg.id }
      else
        match buf with
        | none =>
            { type := "analysis-complete",
              payload := WirePayload.analysisComplete (generateMockAnalysis wrand)
                fileName,
              id := msg.id }
        | some b =>
            { type := "analysis-complete",
              payload := WirePayload.analysisComplete (essentiaAnalyze b) fileName,
              id := msg.id }

/-- State threaded through the batch processor: the worker manager, the cache
with its storage, the processed `AudioFileRecord`s (file plus its `analysis`
field), and the progress counters of `processingStatus`. -/
structure ProcState where
  manager : EssentiaWorkerManager
  cache : CacheStore
  storage : Storage
  records : List (AudioFile × Option AnalysisResult)
  cachedCount : Nat
  current : Nat
deriving Repr, DecidableEq

/-- The uncached branch of per-file processing (sketch.js line 222-237 and
269-294): load the audio buffer (`loadAudioBuffer` returns null on decode
failure — AudioPlayerUI.js line 500-526 — it never throws), run
`essentiaWorker.analyzeAudio` (which resolves with the analysis of the
response, or with a mock on any internal rejection — it never rejects), then
pass whatever came back to `cacheManager.setCachedAnalysis`.  The JS catch
branch (substitute a mock and skip the cache write) is unreachable, because
none of the three callees can throw. -/
def analyzeAndCache (stringify : CacheStore → String) (blobSize : String → Nat)
    (decode : AudioFile → Option (List Rat))
    (respond : OutboundMsg → Option WireMsg)
    (rand : Nat → Rat) (now : Nat)
    (m : EssentiaWorkerManager) (c : CacheStore) (st : Storage) (f : AudioFile) :
    EssentiaWorkerManager × CacheStore × Storage × Option AnalysisResult :=
  let audioBuffer := decode f
  match analyzeAudioStart m audioBuffer f.name rand now with
  | AnalyzeStep.immediate a =>
      let r := setCachedAnalysis stringify blobSize f (some a) now c st
      (m, r.1, r.2, some a)
  | AnalyzeStep.awaiting m1 id _fireAt =>
      let ao := awaitOutcome m1 id (respond
        { type := "analyze", payload := OutPayload.analyzePayload audioBuffer f.name,
          id := id })
      let result := analyzeAudioFinish ao.2 rand
      let r := setCachedAnalysis stringify blobSize f result now c st
      (ao.1, r.1, r.2, result)

def updateRecordAt : List (AudioFile × Option AnalysisResult) → Nat →
    Option AnalysisResult → List (AudioFile × Option AnalysisResult)
  | [], _, _ => []
  | r :: rs, 0, res => (r.1, res) :: rs
  | r :: rs, Nat.succ i, res => r :: updateRecordAt rs i res

/-- sketch.js `initializeApp` (line 147-205) followed by
`processFirstAudioFile` (line 207-253) and `processRemainingAudioFiles`
(line 255-316): partition the dataset attaching cached analyses (the forEach
at line 174-183, which counts `processingStatus.cached`), process file 0
(cache hit → read the cache again; miss → decode, analyze, cache the result),
then files 1..N-1 in order (cache hit → nothing, the analysis was attached by
the partition pass; miss → decode, analyze, cache), updating
`processingStatus.current` after each file.  `clock n` is the `Date.now()`
value during step n and `rand i` the `Math.random()` stream used for file i. -/
def initApp (stringify : CacheStore → String) (blobSize : String → Nat)
    (decode : AudioFile → Option (List Rat))
    (respond : OutboundMsg → Option WireMsg)
    (rand : Nat → Nat → Rat) (clock : Nat → Nat) (files : List AudioFile)
    (m : EssentiaWorkerManager) (c : CacheStore) (st : Storage) : ProcState :=
  let s0 : ProcState :=
    { manager := m, cache := c, storage := st,
      records := [], cachedCount := 0, current := 0 }
  let s1 := files.foldl (fun s f =>
      if hasCachedAnalysis f s.cache then
        let g := getCachedAnalysis f (clock 0) s.cache
        { s with cache := g.2, records := s.records ++ [(f, g.1)],
                 cachedCount := s.cachedCount + 1 }
      else { s with records := s.records ++ [(f, none)] }) s0
  match files with
  | [] => s1
  | f0 :: rest =>
      let s2 :=
        if hasCachedAnalysis f0 s1.cache then
          let g := getCachedAnalysis f0 (clock 1) s1.cache
          { s1 with cache := g.2, records := updateRecordAt s1.records 0 g.1 }
        else
          let r := analyzeAndCache stringify blobSize decode respond (rand 0)
            (clock 1) s1.manager s1.cache s1.storage f0
          { s1 with manager := r.1, cache := r.2.1, storage := r.2.2.1,
                    records := updateRecordAt s1.records 0 r.2.2.2 }
      let s3 := { s2 with current := 1 }
      (rest.enum).foldl (fun s p =>
          let i := p.1 + 1
          let f := p.2
          let s4 :=
            if hasCachedAnalysis f s.cache then s
            else
              let r := analyzeAndCache stringify blobSize decode respond (rand i)
                (clock (i + 1)) s.manager s.cache s.storage f
              { s with manager := r.1, cache := r.2.1, storage := r.2.2.1,
                       records := updateRecordAt s.records i r.2.2.2 }
          { s4 with current := i + 1 }) s3

/-! ## Claim C1: synthetic fallback results and the cache

The claim says the substituted synthetic result is never written to the cache.
In the code, `analyzeAudio` (CacheManager.js line 284-306) RESOLVES with the
mock result when the worker is not initialized (and when the request is
rejected), so the batch processor continues on its success path
(sketch.js line 279-282) and calls `setCachedAnalysis` with that mock.  The
`// Do not cache mock analysis` comments at sketch.js line 237 and 293 only
guard the catch branch, which is unreachable.  So with the engine
force-disabled, every file gets a non-null synthetic analysis — that part of
the claim holds — but each synthetic result IS persisted. -/

def c1wFileA : AudioFile := { path := "a.mp3", size := 1, name := "a.mp3" }

def c1wFileB : AudioFile := { path := "b.mp3", size := 2, name := "b.mp3" }

/-- Batch processing a 2-file dataset with the Analysis Engine force-disabled
(worker never initialized), starting from an empty cache. -/
def c1wResult : ProcState :=
  initApp (fun _ => "") (fun _ => 0) (fun _ => some [0]) (fun _ => none)
    (fun _ _ => 0) (fun _ => 0) [c1wFileA, c1wFileB]
    { workerAlive := false, isInitialized := false, messageId := 0,
      pending := [], settled := [], posted := [] }
    freshCache { quota := 0, item := none, attempts := 0 }

/-- C1 evaluated at the failing input: both AudioFileRecords end with a
non-null (synthetic) analysis, as the claim says, but the cache afterwards
holds 2 entries, not 0 — the synthetic results were persisted through the
resolve path of `analyzeAudio`. -/
theorem c1_synthetic_results_are_cached :
    (∀ r ∈ c1wResult.records, r.2.isSome = true) ∧
    c1wResult.records.length = 2 ∧
    c1wResult.cache.data.length = 2 ∧
    ¬ c1wResult.cache.data.length = 0 := by
  decide

/-! ## Claim C3: decode failure

The claim says a file whose decode fails never reaches the Worker Channel and
is never cached.  `loadAudioBuffer` signals decode failure by RESOLVING with
null (AudioPlayerUI.js line 521-525); the batch processor never checks for
null and passes the null buffer straight to `analyzeAudio`, which posts an
analyze request carrying `audioBuffer: null` to the worker.  Reading
`audioBuffer.length` there throws a TypeError inside the try block of the
worker `analyzeAudio`, whose own catch substitutes a worker-side mock, so
the reply is analysis-complete carrying a synthetic result — which the
success path then caches. -/

def c3wFile : AudioFile := { path := "p/x.mp3", size := 9, name := "x.mp3" }

/-- Batch processing a 1-file dataset whose decode fails (decoder yields
null), with the engine healthy (worker initialized, replying per
essentia.worker.js). -/
def c3wResult : ProcState :=
  initApp (fun _ => "") (fun _ => 0) (fun _ => none)
    (fun msg => some (workerOnMessage (fun _ => generateMockAnalysis (fun _ => 0))
      (fun _ => 0) true msg))
    (fun _ _ => 0) (fun _ => 0) [c3wFile]
    { workerAlive := true, isInitialized := true, messageId := 0,
      pending := [], settled := [], posted := [] }
    freshCache { quota := 0, item := none, attempts := 0 }

/-- C3 evaluated at the failing input: the decode-failed file DOES reach the
Worker Channel (an analyze request with a null audioBuffer is posted for it),
and a cache entry IS created for it; it does receive a synthetic fallback
analysis (the one part of the claim the code satisfies). -/
theorem c3_decode_failure_reaches_worker_and_is_cached :
    c3wResult.manager.posted =
      [{ type := "analyze", payload := OutPayload.analyzePayload none "x.mp3",
         id := 0 }] ∧
    hasCachedAnalysis c3wFile c3wResult.cache = true ∧
    c3wResult.records.length = 1 ∧
    (∀ r ∈ c3wResult.records, r.2.isSome = true) := by
  decide
